import Mathlib

/-!
Verification development for the `tatari-tv/pre-commit-hooks` repository.

The repository is a collection of pre-commit hook scripts.  Each hook scans
Python source files (by regular-expression text scanning or by walking the
parsed syntax tree), collects violation records, optionally drops violations
whose source line carries an inline suppression marker, and exits nonzero when
violations remain.

This file gives a shallow embedding of the hooks' data model and operations:
Python strings become Lean `String`/`List Char`, the syntax tree becomes an
explicit inductive type (the hooks receive the tree from `ast.parse`, so the
tree is an input of the embedded functions), and the specific compiled regular
expressions become executable matchers that follow Python `re` semantics
(leftmost match, alternatives tried in order, greedy optional groups).
-/

namespace PreCommitHooks

/-! ## String primitives

Executable models of the Python string operations the hooks use:
`in` (substring test), `str.count` for a triple-quote delimiter,
`str.strip`, `str.startswith`/`endswith` and whitespace classification. -/

/-- Does `pat` occur at the head of `s`?  (model of Python `str.startswith`). -/
def leadsWith : List Char → List Char → Bool
  | [], _ => true
  | _ :: _, [] => false
  | a :: as, b :: bs => a == b && leadsWith as bs

/-- Does `pat` occur somewhere in `s`?  (model of Python `pat in s`;
`"" in s` is `True` in Python, matched by the `[]` case). -/
def hasSubChars (pat : List Char) : List Char → Bool
  | [] => pat.isEmpty
  | c :: rest => leadsWith pat (c :: rest) || hasSubChars pat rest

/-- Substring test on `String` (model of Python `sub in s`). -/
def strHas (s sub : String) : Bool := hasSubChars sub.toList s.toList

/-- Characters stripped by Python `str.strip()` with no argument. -/
def isPyWhitespace (c : Char) : Bool :=
  c == ' ' || c == '\t' || c == '\n' || c == '\x0d' || c == '\x0c' || c == '\x0b'

/-- Model of Python `str.strip()` on a character list. -/
def pyStrip (s : List Char) : List Char :=
  ((s.dropWhile isPyWhitespace).reverse.dropWhile isPyWhitespace).reverse

/-- Count non-overlapping occurrences of the triple delimiter `qqq`
(model of Python `str.count('"""')` / `str.count("'''")`, which counts
non-overlapping occurrences scanning from the left). -/
def countTriple (q : Char) : List Char → Nat
  | a :: b :: c :: rest =>
      if a == q && b == q && c == q then 1 + countTriple q rest
      else countTriple q (b :: c :: rest)
  | _ => 0

/-- Model of Python `str.endswith`. -/
def strEndsWith (s pat : String) : Bool :=
  leadsWith pat.toList.reverse s.toList.reverse

/-! ## `python_hooks/utills/ignore_check.py`

The suppression registry shared by the tree-scanner hooks.  A violation
record (`IdentifierCheck`) carries the flagged name, the suggested
replacement, a 1-based line number and a 0-based column offset.
`ignore_check` re-reads the scanned file line by line and removes every
violation whose source line contains the suppression marker
(`NOQA = "tatari-noqa"`).  The embedding takes the file's lines as a list
(the source re-opens the file by name and iterates its lines). -/

def NOQA : String := "tatari-noqa"

structure IdentifierCheck where
  name : String
  replacement : String
  line : Nat
  col_offset : Nat
deriving DecidableEq, Repr

/-- Model of Python `list.remove`: removes the first element equal to `c`
(in the source the element is always present, so the error branch of
`list.remove` is unreachable; an absent element leaves the list unchanged). -/
def removeFirst : List IdentifierCheck → IdentifierCheck → List IdentifierCheck
  | [], _ => []
  | x :: xs, c => if x = c then xs else x :: removeFirst xs c

/-- The inner loop of `ignore_check` for the line with 0-based index `i`:
iterate over the snapshot of current checks at line `i + 1` and remove each
one when the line contains the marker. -/
def ignoreLine (noqa line : String) (i : Nat) (cur : List IdentifierCheck) :
    List IdentifierCheck :=
  (cur.filter (fun c => c.line == i + 1)).foldl
    (fun acc c => if strHas line noqa then removeFirst acc c else acc) cur

/-- The enumeration loop of `ignore_check`: `failing_lines` is computed once
from the original list of checks, `i` is the 0-based line index. -/
def ignoreGo (noqa : String) (failing_lines : List Nat) :
    Nat → List String → List IdentifierCheck → List IdentifierCheck
  | _, [], cur => cur
  | i, line :: rest, cur =>
      ignoreGo noqa failing_lines (i + 1) rest
        (if (i + 1) ∈ failing_lines then ignoreLine noqa line i cur else cur)

/-- `ignore_check(filename, check_fails, noqa_string)` from
`python_hooks/utills/ignore_check.py`, with the file's contents passed as its
list of lines. -/
def ignore_check (lines : List String) (check_fails : List IdentifierCheck)
    (noqa_string : String := NOQA) : List IdentifierCheck :=
  ignoreGo noqa_string (check_fails.map (·.line)) 0 lines check_fails

/-- Is the check `c` suppressed by one of the lines `ls`, where the first
element of `ls` has 0-based index `i`?  A check is suppressed exactly when the
line at index `c.line - 1` exists and contains the marker. -/
def suppressedFrom (noqa : String) (i : Nat) (ls : List String)
    (c : IdentifierCheck) : Bool :=
  match ls with
  | [] => false
  | line :: rest =>
      if c.line == i + 1 then strHas line noqa
      else suppressedFrom noqa (i + 1) rest c

/-! ## Python syntax trees

The tree-scanner hooks call `ast.parse` and walk the resulting tree.  The
embedding models the fragment of the Python AST the hooks inspect: names,
attribute accesses, calls, string constants, ternary expressions (`IfExp`),
assignments, `return`, `if` statements, imports, expression statements and
function definitions.  Every node carries `lineno` (1-based) and
`col_offset` (0-based) as in the Python AST.  A node kind a hook does not
inspect is represented by `constOther` / `passStmt`. -/

inductive PyExpr where
  | name (id : String) (lineno col_offset : Nat)
  | attribute (value : PyExpr) (attr : String) (lineno col_offset : Nat)
  | call (func : PyExpr) (args : List PyExpr) (lineno col_offset : Nat)
  | constStr (value : String) (lineno col_offset : Nat)
  | constOther (lineno col_offset : Nat)
  | ifExp (test body orelse : PyExpr) (lineno col_offset : Nat)

inductive PyStmt where
  | assign (value : PyExpr) (lineno col_offset : Nat)
  | ret (value : Option PyExpr) (lineno col_offset : Nat)
  | ifStmt (test : PyExpr) (body orelse : List PyStmt) (lineno col_offset : Nat)
  | importStmt (names : List String) (lineno col_offset : Nat)
  | importFrom (module : Option String) (lineno col_offset : Nat)
  | exprStmt (value : PyExpr) (lineno col_offset : Nat)
  | funcDef (name : String) (body : List PyStmt) (lineno col_offset : Nat)
  | passStmt (lineno col_offset : Nat)

/-- A node yielded by the tree walk: either a statement or an expression. -/
inductive PyNode where
  | stmt (s : PyStmt)
  | expr (e : PyExpr)

/-! `ast.walk` yields every descendant node of the tree (including the start
node itself); its documentation specifies no order.  `walkStmtList` collects
all nodes of a module body; the `ast.Module` node itself is also yielded by
`ast.walk` but matches none of the hooks' node tests, so it is not
represented. -/

mutual

def walkExpr : PyExpr → List PyNode
  | .name i l c => [.expr (.name i l c)]
  | .attribute v a l c => .expr (.attribute v a l c) :: walkExpr v
  | .call f args l c => .expr (.call f args l c) :: (walkExpr f ++ walkExprList args)
  | .constStr s l c => [.expr (.constStr s l c)]
  | .constOther l c => [.expr (.constOther l c)]
  | .ifExp t b o l c => .expr (.ifExp t b o l c) :: (walkExpr t ++ walkExpr b ++ walkExpr o)

def walkExprList : List PyExpr → List PyNode
  | [] => []
  | e :: es => walkExpr e ++ walkExprList es

end

mutual

def walkStmt : PyStmt → List PyNode
  | .assign v l c => .stmt (.assign v l c) :: walkExpr v
  | .ret none l c => [.stmt (.ret none l c)]
  | .ret (some e) l c => .stmt (.ret (some e) l c) :: walkExpr e
  | .ifStmt t b o l c => .stmt (.ifStmt t b o l c) :: (walkExpr t ++ walkStmtList b ++ walkStmtList o)
  | .importStmt ns l c => [.stmt (.importStmt ns l c)]
  | .importFrom m l c => [.stmt (.importFrom m l c)]
  | .exprStmt v l c => .stmt (.exprStmt v l c) :: walkExpr v
  | .funcDef n b l c => .stmt (.funcDef n b l c) :: walkStmtList b
  | .passStmt l c => [.stmt (.passStmt l c)]

def walkStmtList : List PyStmt → List PyNode
  | [] => []
  | s :: ss => walkStmt s ++ walkStmtList ss

end

/-! ## `python_hooks/disallowed_function_calls.py` and
`python_hooks/disallowed_attributes.py`

`check_function_call` walks the tree and flags every `Call` node whose
function is an `Attribute` whose attribute name is in the caller-supplied
disallowed list; `check_attributes` flags every `Attribute` node whose
attribute name is disallowed.  The flagged record pairs the name with the
replacement at the same index of the parallel replacement list
(`validate_args` guarantees the two lists have equal length before
scanning, so the index is always in range; `getD` supplies a default that
is never reached under that precondition).  The accumulated records are
then passed through `ignore_check`, and the hook prints the survivors and
returns 1 when any remain. -/

def flagFunctionCall (disallowed suggest_replace : List String) :
    PyNode → Option IdentifierCheck
  | .expr (.call (.attribute _ attr _ _) _ lineno col) =>
      if attr ∈ disallowed then
        some ⟨attr, suggest_replace.getD (disallowed.indexOf attr) "", lineno, col⟩
      else none
  | _ => none

def flagAttribute (disallowed suggest_replace : List String) :
    PyNode → Option IdentifierCheck
  | .expr (.attribute _ attr lineno col) =>
      if attr ∈ disallowed then
        some ⟨attr, suggest_replace.getD (disallowed.indexOf attr) "", lineno, col⟩
      else none
  | _ => none

/-- The accumulation loop of `check_function_call`. -/
def collectFunctionCalls (tree : List PyStmt) (disallowed suggest_replace : List String) :
    List IdentifierCheck :=
  (walkStmtList tree).filterMap (flagFunctionCall disallowed suggest_replace)

/-- The accumulation loop of `check_attributes`. -/
def collectAttributes (tree : List PyStmt) (disallowed suggest_replace : List String) :
    List IdentifierCheck :=
  (walkStmtList tree).filterMap (flagAttribute disallowed suggest_replace)

/-- `check_function_call` from `python_hooks/disallowed_function_calls.py`:
returns the violations that survive `ignore_check` together with the exit
status.  The parsed tree and the file's lines stand for the two reads of the
file. -/
def check_function_call (lines : List String) (tree : List PyStmt)
    (disallowed suggest_replace : List String) : List IdentifierCheck × Nat :=
  let annotated := ignore_check lines (collectFunctionCalls tree disallowed suggest_replace)
  (annotated, if 0 < annotated.length then 1 else 0)

/-- `check_attributes` from `python_hooks/disallowed_attributes.py`. -/
def check_attributes (lines : List String) (tree : List PyStmt)
    (disallowed suggest_replace : List String) : List IdentifierCheck × Nat :=
  let annotated := ignore_check lines (collectAttributes tree disallowed suggest_replace)
  (annotated, if 0 < annotated.length then 1 else 0)

/-! ## `python_hooks/no_hardcoded_buckets.py`

The bucket pattern scanner.  `is_comment_or_docstring_line` is the
line classifier; the rest of the hook follows below. -/

def tripleDouble : List Char := ['"', '"', '"']

def tripleSingle : List Char := ['\'', '\'', '\'']

/-- The tail of `is_comment_or_docstring_line` reached when the
docstring-boundary branch is not taken: skip lines inside a docstring and
comment-only lines. -/
def commentOrCodeLine (stripped : List Char) (in_docstring : Bool) : Bool × Bool :=
  if in_docstring then (true, in_docstring)
  else if leadsWith ['#'] stripped then (true, in_docstring)
  else (false, in_docstring)

/-- `is_comment_or_docstring_line(line, in_docstring)` from
`python_hooks/no_hardcoded_buckets.py`: returns
`(should_skip, new_in_docstring_state)`.  The `countTriple ... == 1` branch
is the only one that toggles the flag; a count of at least 2 of either
delimiter is treated as a self-contained single-line docstring.  (In the
source the final two `if`s are fall-through code after the delimiter
branch; the delimiter branch always returns, so the fall-through is reached
exactly when the stripped line contains neither delimiter.) -/
def is_comment_or_docstring_line (line : String) (in_docstring : Bool) :
    Bool × Bool :=
  let stripped := pyStrip line.toList
  if hasSubChars tripleDouble stripped || hasSubChars tripleSingle stripped then
    let triple_double := countTriple '"' stripped
    let triple_single := countTriple '\'' stripped
    if 2 ≤ triple_double ∨ 2 ≤ triple_single then (true, in_docstring)
    else if triple_double == 1 || triple_single == 1 then (true, !in_docstring)
    else commentOrCodeLine stripped in_docstring
  else commentOrCodeLine stripped in_docstring

namespace NoHardcodedBuckets

/-! ### The compiled regular expressions of `no_hardcoded_buckets.py`

`BUCKET_REGEX` is the alternation (in order) of the eight `BUCKET_PATTERNS`;
`REGION_REGEX` the alternation of the four `REGION_PATTERNS`.  The matchers
below follow Python `re` semantics on these patterns: a match at a position
tries the alternatives in order and takes the first that matches; the
trailing optional groups are greedy (they can never cause a failure because
nothing mandatory follows them, so greedy matching needs no backtracking
here).  A matcher returns the remaining suffix after the matched text.
`\d` is modelled as an ASCII decimal digit and `\w` (for `\b`) as an ASCII
word character. -/

def matchLit (pat : List Char) (s : List Char) : Option (List Char) :=
  if leadsWith pat s then some (s.drop pat.length) else none

def matchAlts (pats : List (List Char)) (s : List Char) : Option (List Char) :=
  match pats with
  | [] => none
  | p :: ps =>
      match matchLit p s with
      | some r => some r
      | none => matchAlts ps s

/-- A greedy optional group: take the group's match if there is one. -/
def matchOpt (f : List Char → Option (List Char)) (s : List Char) : List Char :=
  (f s).getD s

def matchDigit (s : List Char) : Option (List Char) :=
  match s with
  | [] => none
  | c :: rest => if c.isDigit then some rest else none

/-- `-(?:dev|staging|prod|test)` -/
def envSuffix : List Char → Option (List Char) :=
  matchAlts ["-dev".toList, "-staging".toList, "-prod".toList, "-test".toList]

/-- `-us-(?:east|west)-\d` -/
def regionSuffix (s : List Char) : Option (List Char) :=
  (matchLit "-us-".toList s).bind fun r1 =>
  (matchAlts ["east".toList, "west".toList] r1).bind fun r2 =>
  (matchLit "-".toList r2).bind matchDigit

/-- `tatari-datalake(?:-(?:dev|staging|prod|test))?(?:-us-(?:east|west)-\d)?` -/
def bucketPatDatalake (s : List Char) : Option (List Char) :=
  (matchLit "tatari-datalake".toList s).map fun r =>
    matchOpt regionSuffix (matchOpt envSuffix r)

/-- `tatari-scratch(?:-(?:dev|staging|prod|test))?(?:-us-(?:east|west)-\d)?` -/
def bucketPatScratch (s : List Char) : Option (List Char) :=
  (matchLit "tatari-scratch".toList s).map fun r =>
    matchOpt regionSuffix (matchOpt envSuffix r)

/-- `tatari-scratch-useast\d` -/
def bucketPatScratchLegacy (s : List Char) : Option (List Char) :=
  (matchLit "tatari-scratch-useast".toList s).bind matchDigit

/-- `tatari-datalake-temp-(?:dev|staging|prod)-us-(?:east|west)-\d` -/
def bucketPatTemp (s : List Char) : Option (List Char) :=
  (matchLit "tatari-datalake-temp-".toList s).bind fun r1 =>
  (matchAlts ["dev".toList, "staging".toList, "prod".toList] r1).bind regionTail
where
  regionTail (r : List Char) : Option (List Char) :=
    (matchLit "-us-".toList r).bind fun r2 =>
    (matchAlts ["east".toList, "west".toList] r2).bind fun r3 =>
    (matchLit "-".toList r3).bind matchDigit

/-- `tatari-gx-(?:dev|staging|prod)(?:-us-(?:east|west)-\d)?` -/
def bucketPatGx (s : List Char) : Option (List Char) :=
  ((matchLit "tatari-gx-".toList s).bind
    (matchAlts ["dev".toList, "staging".toList, "prod".toList])).map
      (matchOpt regionSuffix)

/-- `tatari-xcom-(?:dev|staging|prod)(?:-us-(?:east|west)-\d)?` -/
def bucketPatXcom (s : List Char) : Option (List Char) :=
  ((matchLit "tatari-xcom-".toList s).bind
    (matchAlts ["dev".toList, "staging".toList, "prod".toList])).map
      (matchOpt regionSuffix)

/-- `tatari-analysis-validation-temp-(?:dev|staging|prod)-us-(?:east|west)-\d` -/
def bucketPatAnalysis (s : List Char) : Option (List Char) :=
  (matchLit "tatari-analysis-validation-temp-".toList s).bind fun r1 =>
  (matchAlts ["dev".toList, "staging".toList, "prod".toList] r1).bind fun r2 =>
  (matchLit "-us-".toList r2).bind fun r3 =>
  (matchAlts ["east".toList, "west".toList] r3).bind fun r4 =>
  (matchLit "-".toList r4).bind matchDigit

/-- `tatari-data-science` -/
def bucketPatDataScience (s : List Char) : Option (List Char) :=
  matchLit "tatari-data-science".toList s

def matchFirst (fs : List (List Char → Option (List Char))) (s : List Char) :
    Option (List Char) :=
  match fs with
  | [] => none
  | f :: rest =>
      match f s with
      | some r => some r
      | none => matchFirst rest s

/-- A `BUCKET_REGEX` match attempt at the head of `s`. -/
def bucketMatchAt : List Char → Option (List Char) :=
  matchFirst
    [bucketPatDatalake, bucketPatScratch, bucketPatScratchLegacy, bucketPatTemp,
      bucketPatGx, bucketPatXcom, bucketPatAnalysis, bucketPatDataScience]

/-- ASCII model of the `re` word character class (for `\b`). -/
def isWordChar (c : Char) : Bool := c.isAlphanum || c == '_'

def boundaryBefore (prev : Option Char) : Bool :=
  match prev with
  | none => true
  | some c => !isWordChar c

def boundaryAfterOk (rest : List Char) : Bool :=
  match rest with
  | [] => true
  | c :: _ => !isWordChar c

/-- One `\b<lit>\b` alternative of `REGION_REGEX`, attempted at the head of
`s`; `prev` is the character before the current position. -/
def regionAlt (lit : List Char) (prev : Option Char) (s : List Char) :
    Option (List Char) :=
  if boundaryBefore prev then
    (matchLit lit s).bind fun r => if boundaryAfterOk r then some r else none
  else none

/-- A `REGION_REGEX` match attempt at the head of `s`. -/
def regionMatchAt (prev : Option Char) (s : List Char) : Option (List Char) :=
  match regionAlt "us-east-1".toList prev s with
  | some r => some r
  | none =>
      match regionAlt "us-west-2".toList prev s with
      | some r => some r
      | none =>
          match regionAlt "useast1".toList prev s with
          | some r => some r
          | none => regionAlt "uswest2".toList prev s

/-- `BUCKET_REGEX.finditer(line)`: the non-overlapping matches scanning left
to right, as `(start offset, matched text)` pairs.  `skip` counts characters
still to consume from the previous match. -/
def bucketFinditerGo (i skip : Nat) : List Char → List (Nat × List Char)
  | [] => []
  | c :: rest =>
      match skip with
      | k + 1 => bucketFinditerGo (i + 1) k rest
      | 0 =>
          match bucketMatchAt (c :: rest) with
          | some r =>
              let len := (c :: rest).length - r.length
              (i, (c :: rest).take len) :: bucketFinditerGo (i + 1) (len - 1) rest
          | none => bucketFinditerGo (i + 1) 0 rest

def bucketFinditer (s : List Char) : List (Nat × List Char) :=
  bucketFinditerGo 0 0 s

/-- `BUCKET_REGEX.search(line)` as a Boolean: is there a match anywhere? -/
def bucketSearch : List Char → Bool
  | [] => false
  | c :: rest => (bucketMatchAt (c :: rest)).isSome || bucketSearch rest

/-- `REGION_REGEX.finditer(line)`, tracking the previous character for the
word-boundary assertions. -/
def regionFinditerGo (i skip : Nat) (prev : Option Char) :
    List Char → List (Nat × List Char)
  | [] => []
  | c :: rest =>
      match skip with
      | k + 1 => regionFinditerGo (i + 1) k (some c) rest
      | 0 =>
          match regionMatchAt prev (c :: rest) with
          | some r =>
              let len := (c :: rest).length - r.length
              (i, (c :: rest).take len) :: regionFinditerGo (i + 1) (len - 1) (some c) rest
          | none => regionFinditerGo (i + 1) 0 (some c) rest

def regionFinditer (s : List Char) : List (Nat × List Char) :=
  regionFinditerGo 0 0 none s

/-! ### `has_noqa_comment` -/

/-- The `re` whitespace class `\s` (ASCII). -/
def isReSpace (c : Char) : Bool :=
  c == ' ' || c == '\t' || c == '\n' || c == '\x0d' || c == '\x0c' || c == '\x0b'

/-- Case-insensitive literal match (`re.IGNORECASE`). -/
def litCI : List Char → List Char → Option (List Char)
  | [], s => some s
  | _ :: _, [] => none
  | p :: ps, c :: cs => if p.toLower == c.toLower then litCI ps cs else none

/-- A match attempt of `NOQA_PATTERN = r"#\s*noqa:\s*hardcoded-bucket"`
(compiled with `re.IGNORECASE`) at the head of `s`. -/
def noqaMatchAt (s : List Char) : Bool :=
  match s with
  | '#' :: rest =>
      match litCI "noqa:".toList (rest.dropWhile isReSpace) with
      | some r1 => (litCI "hardcoded-bucket".toList (r1.dropWhile isReSpace)).isSome
      | none => false
  | _ => false

def noqaSearch : List Char → Bool
  | [] => false
  | c :: rest => noqaMatchAt (c :: rest) || noqaSearch rest

/-- `has_noqa_comment(line)` from `no_hardcoded_buckets.py`. -/
def has_noqa_comment (line : String) : Bool := noqaSearch line.toList

/-- The `Violation` dataclass of `no_hardcoded_buckets.py`. -/
structure Violation where
  filename : String
  line : Nat
  col_offset : Nat
  message : String
  violation_type : String
  matched_text : Option String := none
deriving DecidableEq, Repr

def mkBucketViolation (filename : String) (line_num : Nat)
    (m : Nat × List Char) : Violation :=
  { filename := filename, line := line_num, col_offset := m.1,
    message := "Hardcoded bucket '" ++ String.mk m.2 ++ "' detected.",
    violation_type := "bucket", matched_text := some (String.mk m.2) }

def mkRegionViolation (filename : String) (line_num : Nat)
    (m : Nat × List Char) : Violation :=
  { filename := filename, line := line_num, col_offset := m.1,
    message := "Hardcoded region '" ++ String.mk m.2 ++ "' detected.",
    violation_type := "region", matched_text := some (String.mk m.2) }

/-- The line loop of `find_bucket_violations`: `line_num` is 1-based,
`in_docstring` the docstring state carried across lines.  Inside the region
loop the source re-tests `BUCKET_REGEX.search(line)` for each region match
and skips the match when the line has a bucket match anywhere. -/
def find_bucket_violations_go (filename : String) (check_regions : Bool) :
    Nat → Bool → List String → List Violation
  | _, _, [] => []
  | line_num, in_docstring, line :: rest =>
      let step := is_comment_or_docstring_line line in_docstring
      if step.1 then
        find_bucket_violations_go filename check_regions (line_num + 1) step.2 rest
      else if has_noqa_comment line then
        find_bucket_violations_go filename check_regions (line_num + 1) step.2 rest
      else
        (bucketFinditer line.toList).map (mkBucketViolation filename line_num)
          ++ (if check_regions then
                (regionFinditer line.toList).filterMap (fun m =>
                  if bucketSearch line.toList then none
                  else some (mkRegionViolation filename line_num m))
              else [])
          ++ find_bucket_violations_go filename check_regions (line_num + 1) step.2 rest

/-- `find_bucket_violations(filename, content, lines, check_regions)` from
`no_hardcoded_buckets.py` (the `content` argument is unused by the source
function; the file's lines are passed as a list). -/
def find_bucket_violations (filename : String) (lines : List String)
    (check_regions : Bool := true) : List Violation :=
  find_bucket_violations_go filename check_regions 1 false lines

/-! ### The AST pass -/

/-- `ENV_CHECK_FUNCTIONS` (a set in the source; only membership is used). -/
def ENV_CHECK_FUNCTIONS : List String :=
  ["is_production", "is_staging", "is_prodlike", "is_dev"]

/-- `_is_env_check(node)`: a call whose function name (plain or attribute)
is one of the environment check functions. -/
def _is_env_check : PyExpr → Bool
  | .call (.name i _ _) _ _ _ => i ∈ ENV_CHECK_FUNCTIONS
  | .call (.attribute _ attr _ _) _ _ _ => attr ∈ ENV_CHECK_FUNCTIONS
  | _ => false

def mkCondViolation (filename : String) (lineno col : Nat) (s : String) :
    Violation :=
  { filename := filename, line := lineno, col_offset := col,
    message := "Environment-conditional bucket logic detected.",
    violation_type := "conditional", matched_text := some s }

/-- `_check_body_for_buckets(filename, body, branch)`: flag assignments and
returns of a string constant matching `BUCKET_REGEX` (the `branch` argument
is unused by the source body). -/
def _check_body_for_buckets (filename : String) (body : List PyStmt)
    (_branch : String) : List Violation :=
  body.flatMap fun stmt =>
    match stmt with
    | .assign (.constStr s _ _) lineno col =>
        if bucketSearch s.toList then [mkCondViolation filename lineno col s]
        else []
    | .ret (some (.constStr s _ _)) lineno col =>
        if bucketSearch s.toList then [mkCondViolation filename lineno col s]
        else []
    | _ => []

/-- The `IfExp` child loop of `find_conditional_bucket_violations`: both
children are reported at the `IfExp` node's own position. -/
def condIfExpChildren (filename : String) (lineno col : Nat)
    (children : List PyExpr) : List Violation :=
  children.flatMap fun child =>
    match child with
    | .constStr s _ _ =>
        if bucketSearch s.toList then [mkCondViolation filename lineno col s]
        else []
    | _ => []

/-- `find_conditional_bucket_violations(filename, content)` from
`no_hardcoded_buckets.py`; `none` stands for a `SyntaxError` from
`ast.parse`, on which the source returns no violations. -/
def find_conditional_bucket_violations (filename : String)
    (tree : Option (List PyStmt)) : List Violation :=
  match tree with
  | none => []
  | some m =>
      (walkStmtList m).flatMap fun n =>
        match n with
        | .stmt (.ifStmt test body orelse _ _) =>
            if _is_env_check test then
              _check_body_for_buckets filename body "if"
                ++ _check_body_for_buckets filename orelse "else"
            else []
        | .expr (.ifExp test b o lineno col) =>
            if _is_env_check test then condIfExpChildren filename lineno col [b, o]
            else []
        | _ => []

/-! ### `check_file` -/

def violationKey (v : Violation) : String × Nat × Nat × String :=
  (v.filename, v.line, v.col_offset, v.violation_type)

/-- The deduplication loop of `check_file`: `seen` is the set of keys already
emitted. -/
def dedupGo (seen : List (String × Nat × Nat × String)) :
    List Violation → List Violation
  | [] => []
  | v :: rest =>
      if violationKey v ∈ seen then dedupGo seen rest
      else v :: dedupGo (violationKey v :: seen) rest

/-- `check_file(filename, check_regions)` from `no_hardcoded_buckets.py`.
The file's contents stand in for the read: `none` is an `OSError` from
`open` (the source prints to stderr and returns no violations); otherwise
the lines and the `ast.parse` result are given. -/
def check_file (filename : String)
    (content : Option (List String × Option (List PyStmt)))
    (check_regions : Bool := true) : List Violation :=
  match content with
  | none => []
  | some (lines, tree) =>
      dedupGo [] (find_bucket_violations filename lines check_regions
        ++ find_conditional_bucket_violations filename tree)

end NoHardcodedBuckets

/-! ## `python_hooks/no_boto3_in_airflow_dags.py`

The boto3-import hook.  `check_file` opens and parses the file itself; any
exception while reading, and a `SyntaxError` while parsing, make the file
contribute zero violations (the bulk hooks scan opportunistically).  The
embedding represents the outcome of the read/parse as a `FileInput`. -/

namespace NoBoto3

def NOQA_PATTERN : String := "tatari-noqa"

/-- Model of Python `str.strip()` on `String`. -/
def pyStripStr (s : String) : String := String.mk (pyStrip s.toList)

/-- The `Violation` dataclass of `no_boto3_in_airflow_dags.py`. -/
structure Violation where
  filename : String
  line : Nat
  import_line : String
deriving DecidableEq, Repr

/-- The outcome of opening and parsing one input file: the `open`/`read`
raised (any `Exception`), `ast.parse` raised `SyntaxError`, or both
succeeded. -/
inductive FileInput where
  | unreadable
  | unparsable (lines : List String)
  | parsed (lines : List String) (tree : List PyStmt)

/-- Is `name` the module `boto3` or below it
(`name == 'boto3' or name.startswith('boto3.')`)? -/
def isBoto3Module (name : String) : Bool :=
  name == "boto3" || leadsWith "boto3.".toList name.toList

/-- The shared per-import tail of `check_file`: look up the source line
(`''` when the node's line number exceeds the file), skip when it carries the
marker, otherwise record the stripped line. -/
def importViolation (filename : String) (lines : List String) (lineno : Nat) :
    List Violation :=
  let line_text := if lineno ≤ lines.length then lines.getD (lineno - 1) "" else ""
  if strHas line_text NOQA_PATTERN then []
  else [⟨filename, lineno, pyStripStr line_text⟩]

/-- `check_file(filename)` from `no_boto3_in_airflow_dags.py`. -/
def check_file (filename : String) (input : FileInput) : List Violation :=
  match input with
  | .unreadable => []
  | .unparsable _ => []
  | .parsed lines tree =>
      (walkStmtList tree).flatMap fun n =>
        match n with
        | .stmt (.importStmt names lineno _) =>
            names.flatMap fun aliasName =>
              if isBoto3Module aliasName then importViolation filename lines lineno
              else []
        | .stmt (.importFrom (some module) lineno _) =>
            if isBoto3Module module then importViolation filename lines lineno
            else []
        | _ => []

/-- The file loop of `main`: non-`.py` files are skipped, the rest contribute
their `check_file` violations in order. -/
def collectAll : List (String × FileInput) → List Violation
  | [] => []
  | (fn, inp) :: rest =>
      if strEndsWith fn ".py" then check_file fn inp ++ collectAll rest
      else collectAll rest

/-- `main(argv)` from `no_boto3_in_airflow_dags.py`: exit 1 when any
violation was collected, else 0. -/
def main (files : List (String × FileInput)) : Nat :=
  match collectAll files with
  | [] => 0
  | _ :: _ => 1

end NoBoto3

/-! ## `python_hooks/app_constraints.py`

The application-profile constraint validator for uv projects.  The TOML
manifest is modelled by the two tables the source reads: the optional
`project` table with its optional `requires-python` string and optional
`dependencies` list.  Printing is modelled by returning the list of printed
lines alongside the exit status. -/

namespace AppConstraints

/-- The `project` table of a `pyproject.toml`. -/
structure Project where
  requires_python : Option String
  dependencies : Option (List String)

/-- A loaded `pyproject.toml`. -/
structure PyProjectToml where
  project : Option Project

/-- `_is_uv_project(pyproject)`: `'dependencies' in (pyproject.get('project') or {})`. -/
def _is_uv_project (p : PyProjectToml) : Bool :=
  match p.project with
  | none => false
  | some pr => pr.dependencies.isSome

/-- The version operators of `_VERSION_OP_RE = r'(~=|\^|>=|<=|==|!=|<|>)[^;]*'`,
in alternation order. -/
def versionOps : List (List Char) :=
  [['~', '='], ['^'], ['>', '='], ['<', '='], ['=', '='], ['!', '='], ['<'], ['>']]

/-- The first version operator matching at the head of `s` (regex
alternation order). -/
def opAt (s : List Char) : Option (List Char) :=
  versionOps.find? (fun op => leadsWith op s)

/-- `re.search(_VERSION_OP_RE, dep_str)`: the leftmost position at which a
version operator matches, with the operator; `i` is the current offset. -/
def searchVersionOp (i : Nat) : List Char → Option (Nat × List Char)
  | [] => none
  | c :: rest =>
      match opAt (c :: rest) with
      | some op => some (i, op)
      | none => searchVersionOp (i + 1) rest

/-- The per-dependency body of `_get_uv_dependencies`: strip, drop a
platform marker after a semicolon, locate the version operator
(`group(0)` is the operator followed by `[^;]*`, greedily), and take the
stripped name part before it, dropping extras in brackets. -/
def parseDep (dep_str0 : String) : Option (String × String) :=
  let stripped := pyStrip dep_str0.toList
  let dep_str :=
    if hasSubChars [';'] stripped then pyStrip (stripped.takeWhile (· ≠ ';'))
    else stripped
  match searchVersionOp 0 dep_str with
  | none => none
  | some (i, op) =>
      let constraint :=
        pyStrip (op ++ (dep_str.drop (i + op.length)).takeWhile (· ≠ ';'))
      let name_part := pyStrip (dep_str.take i)
      let dep_name :=
        if hasSubChars ['['] name_part then pyStrip (name_part.takeWhile (· ≠ '['))
        else name_part
      some (String.mk dep_name, String.mk constraint)

/-- `_get_uv_dependencies(pyproject)`: the parsed `(dep_name, constraint)`
pairs of `project.dependencies` (dependencies without a version operator are
skipped). -/
def _get_uv_dependencies (p : PyProjectToml) : List (String × String) :=
  let deps :=
    match p.project with
    | none => []
    | some pr => pr.dependencies.getD []
  deps.filterMap parseDep

/-- `_get_uv_requires_python(pyproject)`. -/
def _get_uv_requires_python (p : PyProjectToml) : Option String :=
  match p.project with
  | none => none
  | some pr => pr.requires_python

/-- `_validate_python_constraint_app(dep_name, constraint)`: exit
contribution and printed lines. -/
def _validate_python_constraint_app (dep_name constraint : String) :
    Nat × List String :=
  if strHas constraint "~=" = false then
    (1, ["INCORRECT FORMAT: " ++ dep_name ++ " = \"" ++ constraint ++ "\"",
      "Applications should use ~= when defining python version in requires-python. For example: requires-python = \"~=3.10\""])
  else (0, [])

/-- `_validate_package_constraint_app(dep_name, constraint)`. -/
def _validate_package_constraint_app (dep_name constraint : String) :
    Nat × List String :=
  if strHas constraint "~=" = false then
    (1, ["INCORRECT FORMAT: " ++ dep_name ++ " = \"" ++ constraint ++ "\"",
      "All application package constraints should use ~= (compatible release). For example: tatari-metrics = \"~=1.0.1\""])
  else (0, [])

/-- The dependency loop of `validate_constraints`: ignored names are
skipped; once `exit_status` is nonzero the validator is still run (so its
messages are printed) but the status is kept. -/
def validateDeps (ignore : List String) :
    Nat × List String → List (String × String) → Nat × List String
  | acc, [] => acc
  | (st, out), (dep_name, constraint) :: rest =>
      if dep_name ∈ ignore then validateDeps ignore (st, out) rest
      else
        let r := _validate_package_constraint_app dep_name constraint
        if st ≠ 0 then validateDeps ignore (st, out ++ r.2) rest
        else validateDeps ignore (r.1, out ++ r.2) rest

/-- `validate_constraints(ignore, pyproject_path)` from
`app_constraints.py`, with the loaded manifest passed directly: exit status
and printed lines. -/
def validate_constraints (ignore : List String) (pyproject : PyProjectToml) :
    Nat × List String :=
  if _is_uv_project pyproject = false then
    (1, ["ERROR: This hook only validates uv projects at this point in time."])
  else
    let init : Nat × List String :=
      match _get_uv_requires_python pyproject with
      | some rp => _validate_python_constraint_app "requires-python" rp
      | none => (0, [])
    validateDeps ignore init (_get_uv_dependencies pyproject)

end AppConstraints

/-! ## Theorems -/

/-! Basic facts about the string primitives. -/

theorem leadsWith_self (l : List Char) : leadsWith l l = true := by
  induction l with
  | nil => rfl
  | cons a as ih => simp [leadsWith, ih]

/-- Appending `pat` to any string makes `pat` a substring: this is how adding
the suppression marker to a line makes the marker-containment test succeed. -/
theorem hasSubChars_append_self (pat l : List Char) :
    hasSubChars pat (l ++ pat) = true := by
  induction l with
  | nil =>
    cases pat with
    | nil => rfl
    | cons c cs => simp [hasSubChars, leadsWith_self]
  | cons c cs ih => simp [hasSubChars, ih]

theorem suppressedFrom_of_lt (noqa : String) (c : IdentifierCheck) :
    ∀ (ls : List String) (i : Nat), c.line < i + 1 →
      suppressedFrom noqa i ls c = false := by
  intro ls
  induction ls with
  | nil => intro i _; rfl
  | cons line rest ih =>
    intro i h
    have hne : (c.line == i + 1) = false := by
      simp only [beq_eq_false_iff_ne]; omega
    simp only [suppressedFrom, hne, if_false, Bool.false_eq_true]
    exact ih (i + 1) (by omega)

theorem removeFirst_of_not_mem (l : List IdentifierCheck) (c : IdentifierCheck)
    (h : c ∉ l) : removeFirst l c = l := by
  induction l with
  | nil => rfl
  | cons x xs ih =>
    simp only [List.mem_cons, not_or] at h
    simp only [removeFirst]
    rw [if_neg (fun he => h.1 he.symm), ih h.2]

/-- Folding `removeFirst` over the sublist of elements satisfying `p`
removes exactly those elements: the snapshot-then-remove loop of
`ignore_check` deletes every check at the marked line. -/
theorem foldl_removeFirst_filter (p : IdentifierCheck → Bool) :
    ∀ (cur : List IdentifierCheck),
      (cur.filter p).foldl removeFirst cur = cur.filter (fun x => !(p x)) := by
  intro cur
  induction cur with
  | nil => rfl
  | cons x xs ih =>
    by_cases hx : p x = true
    · rw [List.filter_cons_of_pos hx]
      simp only [List.foldl_cons]
      have hrx : removeFirst (x :: xs) x = xs := by
        simp [removeFirst]
      rw [hrx, ih, List.filter_cons_of_neg (by simp [hx])]
    · have hx' : p x = false := by simpa using hx
      rw [List.filter_cons_of_neg (by simp [hx']),
        List.filter_cons_of_pos (by simp [hx'])]
      have hstep : ∀ (l : List IdentifierCheck) (xs' : List IdentifierCheck),
          (∀ c ∈ l, p c = true) →
          l.foldl removeFirst (x :: xs') = x :: l.foldl removeFirst xs' := by
        intro l
        induction l with
        | nil => intro xs' _; rfl
        | cons c cs ihl =>
          intro xs' hmem
          simp only [List.foldl_cons]
          have hcx : x ≠ c := by
            intro he
            have := hmem c (by simp)
            rw [← he, hx'] at this
            cases this
          have : removeFirst (x :: xs') c = x :: removeFirst xs' c := by
            simp only [removeFirst]
            rw [if_neg hcx]
          rw [this]
          exact ihl (removeFirst xs' c) (fun d hd => hmem d (by simp [hd]))
      rw [hstep (xs.filter p) xs (fun c hc => (List.mem_filter.mp hc).2), ih]

theorem foldl_id_const (l : List IdentifierCheck) (init : List IdentifierCheck) :
    l.foldl (fun acc (_ : IdentifierCheck) => acc) init = init := by
  induction l generalizing init with
  | nil => rfl
  | cons c cs ih => simp only [List.foldl_cons]; exact ih init

/-- The enumeration loop of `ignore_check` is a filter: a check survives
exactly when its line (among the remaining lines, starting at index `i`)
does not contain the marker.  The hypothesis records that the loop's
precomputed `failing_lines` covers every live check, which holds throughout
because checks are only ever removed. -/
theorem ignoreGo_eq_filter (noqa : String) (fl : List Nat) :
    ∀ (ls : List String) (i : Nat) (cur : List IdentifierCheck),
      (∀ c ∈ cur, c.line ∈ fl) →
      ignoreGo noqa fl i ls cur
        = cur.filter (fun c => !(suppressedFrom noqa i ls c)) := by
  intro ls
  induction ls with
  | nil =>
    intro i cur _
    simp [ignoreGo, suppressedFrom]
  | cons line rest ih =>
    intro i cur hcur
    simp only [ignoreGo]
    by_cases hfl : (i + 1) ∈ fl
    · rw [if_pos hfl]
      by_cases hq : strHas line noqa = true
      · have hcur' : ignoreLine noqa line i cur
            = cur.filter (fun x => !(x.line == i + 1)) := by
          simp only [ignoreLine, hq, if_true]
          exact foldl_removeFirst_filter (fun c => c.line == i + 1) cur
        rw [hcur']
        rw [ih (i + 1) _ (fun c hc => hcur c (List.mem_filter.mp hc).1)]
        rw [List.filter_filter]
        apply List.filter_congr
        intro c _
        by_cases hl : c.line = i + 1
        · simp [suppressedFrom, hl, hq]
        · have : (c.line == i + 1) = false := by simpa using hl
          simp [suppressedFrom, this]
      · have hq' : strHas line noqa = false := by simpa using hq
        have hcur' : ignoreLine noqa line i cur = cur := by
          simp only [ignoreLine, hq', Bool.false_eq_true, if_false]
          exact foldl_id_const _ cur
        rw [hcur', ih (i + 1) cur hcur]
        apply List.filter_congr
        intro c _
        by_cases hl : c.line = i + 1
        · have h0 : suppressedFrom noqa (i + 1) rest c = false :=
            suppressedFrom_of_lt noqa c rest (i + 1) (by omega)
          simp [suppressedFrom, hl, hq', h0]
        · have : (c.line == i + 1) = false := by simpa using hl
          simp [suppressedFrom, this]
    · rw [if_neg hfl]
      rw [ih (i + 1) cur hcur]
      apply List.filter_congr
      intro c hc
      have hl : c.line ≠ i + 1 := fun he => hfl (he ▸ hcur c hc)
      have : (c.line == i + 1) = false := by simpa using hl
      simp [suppressedFrom, this]

/-- `ignore_check` keeps exactly the checks whose source line does not
contain the marker. -/
theorem ignore_check_eq_filter (lines : List String)
    (checks : List IdentifierCheck) (noqa : String) :
    ignore_check lines checks noqa
      = checks.filter (fun c => !(suppressedFrom noqa 0 lines c)) :=
  ignoreGo_eq_filter noqa _ lines 0 checks
    (fun c hc => List.mem_map.mpr ⟨c, hc, rfl⟩)

/-- `suppressedFrom` at start index `i`, for a check whose line is in range,
looks at the line with 0-based index `c.line - 1 - i` and tests it for the
marker. -/
theorem suppressedFrom_getD (noqa : String) (c : IdentifierCheck) :
    ∀ (ls : List String) (i : Nat), i < c.line → c.line ≤ i + ls.length →
      suppressedFrom noqa i ls c = strHas (ls.getD (c.line - 1 - i) "") noqa := by
  intro ls
  induction ls with
  | nil => intro i h1 h2; simp at h2; omega
  | cons line rest ih =>
    intro i h1 h2
    by_cases hl : c.line = i + 1
    · have : (c.line == i + 1) = true := by simpa using hl
      have hidx : c.line - 1 - i = 0 := by omega
      simp [suppressedFrom, this, hidx]
    · have hne : (c.line == i + 1) = false := by simpa using hl
      have hidx : c.line - 1 - i = (c.line - 1 - (i + 1)) + 1 := by omega
      simp only [suppressedFrom, hne, Bool.false_eq_true, if_false, hidx,
        List.getD_cons_succ]
      exact ih (i + 1) (by omega) (by simp at h2; omega)

/-- `suppressedFrom` from index `0`, for a check whose 1-based line is within
the file, is the marker test on the check's source line. -/
theorem suppressedFrom_zero_getD (noqa : String) (c : IdentifierCheck)
    (ls : List String) (h1 : 1 ≤ c.line) (h2 : c.line ≤ ls.length) :
    suppressedFrom noqa 0 ls c = strHas (ls.getD (c.line - 1) "") noqa := by
  have := suppressedFrom_getD noqa c ls 0 (by omega) (by omega)
  simpa using this

/-- Membership in the result of `ignore_check`, assuming every accumulated
check's line number references a physically present line of the file (the
data-model invariant of the scanners): a check survives iff it was
accumulated and its source line does not contain the marker. -/
theorem mem_ignore_check_iff (lines : List String) (acc : List IdentifierCheck)
    (noqa : String)
    (hbound : ∀ d ∈ acc, 1 ≤ d.line ∧ d.line ≤ lines.length)
    (c : IdentifierCheck) :
    c ∈ ignore_check lines acc noqa ↔
      c ∈ acc ∧ strHas (lines.getD (c.line - 1) "") noqa = false := by
  rw [ignore_check_eq_filter, List.mem_filter]
  constructor
  · rintro ⟨hmem, hkeep⟩
    refine ⟨hmem, ?_⟩
    have hb := hbound c hmem
    rw [suppressedFrom_zero_getD noqa c lines hb.1 hb.2] at hkeep
    simpa using hkeep
  · rintro ⟨hmem, hline⟩
    refine ⟨hmem, ?_⟩
    have hb := hbound c hmem
    rw [suppressedFrom_zero_getD noqa c lines hb.1 hb.2, hline]
    rfl

/-- A check is accumulated by `check_function_call` exactly when the walk
yields a `Call` node whose function is an `Attribute` with a disallowed
attribute name, at the check's position. -/
theorem mem_collectFunctionCalls_iff (tree : List PyStmt)
    (disallowed suggest_replace : List String) (c : IdentifierCheck) :
    c ∈ collectFunctionCalls tree disallowed suggest_replace ↔
      ∃ fv args al ac,
        PyNode.expr (.call (.attribute fv c.name al ac) args c.line c.col_offset)
            ∈ walkStmtList tree
          ∧ c.name ∈ disallowed
          ∧ c.replacement = suggest_replace.getD (disallowed.indexOf c.name) "" := by
  rw [collectFunctionCalls, List.mem_filterMap]
  constructor
  · rintro ⟨n, hn, hf⟩
    rcases n with s | e
    · simp [flagFunctionCall] at hf
    · rcases e with ⟨i, l, cc⟩ | ⟨v, a, l, cc⟩ | ⟨f, args, l, cc⟩ | ⟨s, l, cc⟩ |
        ⟨l, cc⟩ | ⟨t, b, o, l, cc⟩
      · simp [flagFunctionCall] at hf
      · simp [flagFunctionCall] at hf
      · rcases f with ⟨i, fl, fc⟩ | ⟨fv, attr, al, ac⟩ | ⟨f', a', fl, fc⟩ |
          ⟨s', fl, fc⟩ | ⟨fl, fc⟩ | ⟨t', b', o', fl, fc⟩
        · simp [flagFunctionCall] at hf
        · by_cases hd : attr ∈ disallowed
          · rw [flagFunctionCall, if_pos hd] at hf
            obtain rfl := Option.some.inj hf
            exact ⟨fv, args, al, ac, hn, hd, rfl⟩
          · rw [flagFunctionCall, if_neg hd] at hf
            cases hf
        · simp [flagFunctionCall] at hf
        · simp [flagFunctionCall] at hf
        · simp [flagFunctionCall] at hf
        · simp [flagFunctionCall] at hf
      · simp [flagFunctionCall] at hf
      · simp [flagFunctionCall] at hf
      · simp [flagFunctionCall] at hf
  · rintro ⟨fv, args, al, ac, hn, hd, hrepl⟩
    obtain ⟨cn, cr, cl, cc⟩ := c
    simp only at hrepl hd hn ⊢
    refine ⟨.expr (.call (.attribute fv cn al ac) args cl cc), hn, ?_⟩
    simp [flagFunctionCall, hd, hrepl]

/-- A check is accumulated by `check_attributes` exactly when the walk yields
an `Attribute` node with a disallowed attribute name, at the check's
position. -/
theorem mem_collectAttributes_iff (tree : List PyStmt)
    (disallowed suggest_replace : List String) (c : IdentifierCheck) :
    c ∈ collectAttributes tree disallowed suggest_replace ↔
      ∃ v,
        PyNode.expr (.attribute v c.name c.line c.col_offset) ∈ walkStmtList tree
          ∧ c.name ∈ disallowed
          ∧ c.replacement = suggest_replace.getD (disallowed.indexOf c.name) "" := by
  rw [collectAttributes, List.mem_filterMap]
  constructor
  · rintro ⟨n, hn, hf⟩
    rcases n with s | e
    · simp [flagAttribute] at hf
    · rcases e with ⟨i, l, cc⟩ | ⟨v, attr, l, cc⟩ | ⟨f, args, l, cc⟩ | ⟨s, l, cc⟩ |
        ⟨l, cc⟩ | ⟨t, b, o, l, cc⟩
      · simp [flagAttribute] at hf
      · by_cases hd : attr ∈ disallowed
        · rw [flagAttribute, if_pos hd] at hf
          obtain rfl := Option.some.inj hf
          exact ⟨v, hn, hd, rfl⟩
        · rw [flagAttribute, if_neg hd] at hf
          cases hf
      · simp [flagAttribute] at hf
      · simp [flagAttribute] at hf
      · simp [flagAttribute] at hf
      · simp [flagAttribute] at hf
  · rintro ⟨v, hn, hd, hrepl⟩
    obtain ⟨cn, cr, cl, cc⟩ := c
    simp only at hrepl hd hn ⊢
    refine ⟨.expr (.attribute v cn cl cc), hn, ?_⟩
    simp [flagAttribute, hd, hrepl]

theorem check_function_call_fst (lines : List String) (tree : List PyStmt)
    (disallowed suggest_replace : List String) :
    (check_function_call lines tree disallowed suggest_replace).1
      = ignore_check lines (collectFunctionCalls tree disallowed suggest_replace) := rfl

theorem check_attributes_fst (lines : List String) (tree : List PyStmt)
    (disallowed suggest_replace : List String) :
    (check_attributes lines tree disallowed suggest_replace).1
      = ignore_check lines (collectAttributes tree disallowed suggest_replace) := rfl

/-- C1: For every file and every caller-supplied disallowed-name list, the
tree-scanner pipeline (`check_function_call` / `check_attributes` followed by
`ignore_check`) reports a violation if and only if a node whose identifier
exactly equals a disallowed name is present in the file AND the violation's
source line does not contain the suppression marker.  Since suppression
depends only on the line, several violations sharing one line are suppressed
together by a single marker occurrence on that line.  The hypotheses record
the data-model invariant that every accumulated violation's line number
references a physically present line of the scanned file. -/
theorem C1_tree_scanner_reports_iff
    (lines : List String) (tree : List PyStmt)
    (disallowed suggest_replace : List String)
    (hb1 : ∀ d ∈ collectFunctionCalls tree disallowed suggest_replace,
      1 ≤ d.line ∧ d.line ≤ lines.length)
    (hb2 : ∀ d ∈ collectAttributes tree disallowed suggest_replace,
      1 ≤ d.line ∧ d.line ≤ lines.length) :
    (∀ c : IdentifierCheck,
      c ∈ (check_function_call lines tree disallowed suggest_replace).1 ↔
        ((∃ fv args al ac,
            PyNode.expr (.call (.attribute fv c.name al ac) args c.line c.col_offset)
                ∈ walkStmtList tree
              ∧ c.name ∈ disallowed
              ∧ c.replacement = suggest_replace.getD (disallowed.indexOf c.name) "")
          ∧ strHas (lines.getD (c.line - 1) "") NOQA = false))
    ∧ (∀ c : IdentifierCheck,
      c ∈ (check_attributes lines tree disallowed suggest_replace).1 ↔
        ((∃ v,
            PyNode.expr (.attribute v c.name c.line c.col_offset) ∈ walkStmtList tree
              ∧ c.name ∈ disallowed
              ∧ c.replacement = suggest_replace.getD (disallowed.indexOf c.name) "")
          ∧ strHas (lines.getD (c.line - 1) "") NOQA = false)) := by
  constructor
  · intro c
    rw [check_function_call_fst, mem_ignore_check_iff _ _ _ hb1 c,
      mem_collectFunctionCalls_iff]
  · intro c
    rw [check_attributes_fst, mem_ignore_check_iff _ _ _ hb2 c,
      mem_collectAttributes_iff]

/-- Witness for C1 on a concrete file: `bar.split(y)` on line 3 is flagged
and reported, while the same call on line 2 carries the marker. -/
theorem C1_witness :
    IdentifierCheck.mk "split" "splitlines" 3 0 ∈
      (check_function_call
        ["import foo", "foo.split(x)  # tatari-noqa", "bar.split(y)"]
        [ .importStmt ["foo"] 1 0,
          .exprStmt (.call (.attribute (.name "foo" 2 0) "split" 2 0)
            [.name "x" 2 10] 2 0) 2 0,
          .exprStmt (.call (.attribute (.name "bar" 3 0) "split" 3 0)
            [.name "y" 3 10] 3 0) 3 0 ]
        ["split"] ["splitlines"]).1 := by
  refine ((C1_tree_scanner_reports_iff _ _ _ _ (by decide) (by decide)).1 _).mpr
    ⟨⟨.name "bar" 3 0, [.name "y" 3 10], 3, 0, ?_, by simp, by decide⟩, by decide⟩
  simp [walkStmtList, walkStmt, walkExpr, walkExprList]

theorem suppressedFrom_of_gt (noqa : String) (c : IdentifierCheck) :
    ∀ (ls : List String) (i : Nat), i + ls.length < c.line →
      suppressedFrom noqa i ls c = false := by
  intro ls
  induction ls with
  | nil => intro i _; rfl
  | cons line rest ih =>
    intro i h
    simp only [List.length_cons] at h
    have hne : (c.line == i + 1) = false := by
      simp only [beq_eq_false_iff_ne]; omega
    simp only [suppressedFrom, hne, Bool.false_eq_true, if_false]
    exact ih (i + 1) (by omega)

theorem getD_set_self (l : List String) (i : Nat) (v : String)
    (h : i < l.length) : (l.set i v).getD i "" = v := by
  simp [List.getD_eq_getElem?_getD, List.getElem?_set_self', h]

theorem getD_set_ne (l : List String) (i j : Nat) (v : String)
    (h : i ≠ j) : (l.set i v).getD j "" = l.getD j "" := by
  simp [List.getD_eq_getElem?_getD, List.getElem?_set_ne h]

/-- C2: Suppression is monotonic.  Replacing one violating, unmarked line of
the file with a line that contains the marker changes the result of
`ignore_check` exactly by removing the violations at that line: the new
result is the old result filtered at that line number, and every check at
that line was present in the old result. -/
theorem C2_ignore_check_monotone
    (lines : List String) (checks : List IdentifierCheck) (noqa newLine : String)
    (l : Nat) (h1 : 1 ≤ l) (h2 : l ≤ lines.length)
    (hviol : ∃ c ∈ checks, c.line = l)
    (hno : strHas (lines.getD (l - 1) "") noqa = false)
    (hnew : strHas newLine noqa = true) :
    (ignore_check (lines.set (l - 1) newLine) checks noqa
        = (ignore_check lines checks noqa).filter (fun c => !(c.line == l)))
      ∧ (∀ c ∈ checks, c.line = l → c ∈ ignore_check lines checks noqa) := by
  obtain ⟨c₀, hc₀, hc₀l⟩ := hviol
  constructor
  · rw [ignore_check_eq_filter, ignore_check_eq_filter, List.filter_filter]
    apply List.filter_congr
    intro c _
    by_cases hcl : c.line = l
    · have hb1 : 1 ≤ c.line := by omega
      have hb2 : c.line ≤ (lines.set (l - 1) newLine).length := by
        rw [List.length_set]; omega
      rw [suppressedFrom_zero_getD noqa c _ hb1 hb2]
      have : (lines.set (l - 1) newLine).getD (c.line - 1) "" = newLine := by
        rw [hcl]
        exact getD_set_self lines (l - 1) newLine (by omega)
      rw [this, hnew]
      have : (c.line == l) = true := by simpa using hcl
      simp [this]
    · have hcle : (c.line == l) = false := by simpa using hcl
      simp only [hcle, Bool.not_false, Bool.true_and]
      by_cases hin : 1 ≤ c.line ∧ c.line ≤ lines.length
      · rw [suppressedFrom_zero_getD noqa c _ hin.1
          (by rw [List.length_set]; exact hin.2),
          suppressedFrom_zero_getD noqa c _ hin.1 hin.2]
        rw [getD_set_ne lines (l - 1) (c.line - 1) newLine (by omega)]
      · rcases Nat.lt_or_ge c.line 1 with hlo | hhi
        · rw [suppressedFrom_of_lt noqa c _ 0 (by omega),
            suppressedFrom_of_lt noqa c _ 0 (by omega)]
        · have hgt : lines.length < c.line := by omega
          rw [suppressedFrom_of_gt noqa c _ 0 (by rw [List.length_set]; omega),
            suppressedFrom_of_gt noqa c _ 0 (by omega)]
  · intro c hc hcl
    rw [ignore_check_eq_filter, List.mem_filter]
    refine ⟨hc, ?_⟩
    rw [suppressedFrom_zero_getD noqa c lines (by omega) (by omega), hcl, hno]
    rfl

/-- Witness for C2: marking line 1 of a two-line file removes exactly the two
violations at line 1 and keeps the one at line 2. -/
theorem C2_witness :
    (ignore_check (["a.split(x); a.split(y)", "b.split(z)"].set 0
          ("a.split(x); a.split(y)" ++ "  # tatari-noqa"))
        [⟨"split", "splitlines", 1, 0⟩, ⟨"split", "splitlines", 1, 12⟩,
          ⟨"split", "splitlines", 2, 0⟩] NOQA
      = (ignore_check ["a.split(x); a.split(y)", "b.split(z)"]
          [⟨"split", "splitlines", 1, 0⟩, ⟨"split", "splitlines", 1, 12⟩,
            ⟨"split", "splitlines", 2, 0⟩] NOQA).filter (fun c => !(c.line == 1)))
    ∧ (∀ c ∈ [(⟨"split", "splitlines", 1, 0⟩ : IdentifierCheck),
        ⟨"split", "splitlines", 1, 12⟩, ⟨"split", "splitlines", 2, 0⟩],
        c.line = 1 →
          c ∈ ignore_check ["a.split(x); a.split(y)", "b.split(z)"]
            [⟨"split", "splitlines", 1, 0⟩, ⟨"split", "splitlines", 1, 12⟩,
              ⟨"split", "splitlines", 2, 0⟩] NOQA) :=
  C2_ignore_check_monotone _ _ NOQA _ 1 (by decide) (by decide)
    ⟨⟨"split", "splitlines", 1, 0⟩, by decide, rfl⟩ (by decide) (by decide)

theorem countTriple_pos_hasSub (q : Char) :
    ∀ (s : List Char), 1 ≤ countTriple q s → hasSubChars [q, q, q] s = true
  | [], h => by simp [countTriple] at h
  | [a], h => by simp [countTriple] at h
  | [a, b], h => by simp [countTriple] at h
  | a :: b :: c :: rest, h => by
      by_cases habc : (a == q && b == q && c == q) = true
      · simp only [Bool.and_eq_true, beq_iff_eq] at habc
        obtain ⟨⟨rfl, rfl⟩, rfl⟩ := habc
        simp [hasSubChars, leadsWith]
      · have hrec : countTriple q (a :: b :: c :: rest)
            = countTriple q (b :: c :: rest) := by
          simp only [countTriple, habc, if_false, Bool.false_eq_true]
        rw [hrec] at h
        have htail := countTriple_pos_hasSub q (b :: c :: rest) h
        have hstep : hasSubChars [q, q, q] (a :: b :: c :: rest)
            = (leadsWith [q, q, q] (a :: b :: c :: rest)
               || hasSubChars [q, q, q] (b :: c :: rest)) := rfl
        rw [hstep, htail, Bool.or_true]

/-- C3 (counterexample): the line `"""a"""b"""` contains an odd number (3) of
the `"""` delimiter, yet the classifier does not toggle the inside-docstring
flag: it takes the `count >= 2` single-line-docstring branch. -/
theorem C3_counterexample :
    countTriple '"' (pyStrip ("\"\"\"a\"\"\"b\"\"\"").toList) % 2 = 1
      ∧ (is_comment_or_docstring_line "\"\"\"a\"\"\"b\"\"\"" false).2 = false := by
  constructor
  · decide
  · decide

/-- C3 (amended): a line whose stripped text contains exactly one occurrence
of a triple-quote delimiter (and at most one of the other) toggles the
inside-docstring flag; a line containing at least two occurrences of either
delimiter — whether the count is even or odd — is skipped as a self-contained
single-line docstring without changing the flag; and a delimiter-free line
while inside a docstring is skipped with the flag kept, so the flag persists
until a closing delimiter is seen. -/
theorem C3_docstring_boundary (line : String) (in_docstring : Bool) :
    ((countTriple '"' (pyStrip line.toList) = 1
        ∧ countTriple '\'' (pyStrip line.toList) ≤ 1)
      ∨ (countTriple '\'' (pyStrip line.toList) = 1
        ∧ countTriple '"' (pyStrip line.toList) ≤ 1) →
      is_comment_or_docstring_line line in_docstring = (true, !in_docstring))
    ∧ (2 ≤ countTriple '"' (pyStrip line.toList)
        ∨ 2 ≤ countTriple '\'' (pyStrip line.toList) →
      is_comment_or_docstring_line line in_docstring = (true, in_docstring))
    ∧ (hasSubChars tripleDouble (pyStrip line.toList) = false →
       hasSubChars tripleSingle (pyStrip line.toList) = false →
       in_docstring = true →
      is_comment_or_docstring_line line in_docstring = (true, in_docstring)) := by
  refine ⟨?_, ?_, ?_⟩
  · intro hc
    have hsub : (hasSubChars tripleDouble (pyStrip line.toList)
        || hasSubChars tripleSingle (pyStrip line.toList)) = true := by
      rcases hc with ⟨h1, _⟩ | ⟨h1, _⟩
      · have h := countTriple_pos_hasSub '"' (pyStrip line.toList) (by omega)
        rw [tripleDouble, h, Bool.true_or]
      · have h := countTriple_pos_hasSub '\'' (pyStrip line.toList) (by omega)
        rw [tripleSingle, h, Bool.or_true]
    have hlt : ¬(2 ≤ countTriple '"' (pyStrip line.toList)
        ∨ 2 ≤ countTriple '\'' (pyStrip line.toList)) := by
      rcases hc with ⟨h1, h2⟩ | ⟨h1, h2⟩ <;> omega
    have heq : (countTriple '"' (pyStrip line.toList) == 1
        || countTriple '\'' (pyStrip line.toList) == 1) = true := by
      rcases hc with ⟨h1, _⟩ | ⟨h1, _⟩
      · rw [h1]; rfl
      · rw [h1]; simp
    rw [is_comment_or_docstring_line]
    simp only [hsub, if_true, if_neg hlt, heq, if_true]
  · intro hc
    have hsub : (hasSubChars tripleDouble (pyStrip line.toList)
        || hasSubChars tripleSingle (pyStrip line.toList)) = true := by
      rcases hc with h1 | h1
      · have h := countTriple_pos_hasSub '"' (pyStrip line.toList) (by omega)
        rw [tripleDouble, h, Bool.true_or]
      · have h := countTriple_pos_hasSub '\'' (pyStrip line.toList) (by omega)
        rw [tripleSingle, h, Bool.or_true]
    rw [is_comment_or_docstring_line]
    simp only [hsub, if_true, if_pos hc]
  · intro h1 h2 hd
    rw [is_comment_or_docstring_line]
    simp only [h1, h2, Bool.or_self, Bool.false_eq_true, if_false,
      commentOrCodeLine, hd, if_true]

/-- Witness for C3: a lone opening delimiter toggles the flag on, and a
double-delimiter line leaves the (on) flag unchanged. -/
theorem C3_witness :
    is_comment_or_docstring_line "\"\"\"start of docstring" false = (true, true)
      ∧ is_comment_or_docstring_line "\"\"\"one line\"\"\"" true = (true, true) :=
  ⟨(C3_docstring_boundary "\"\"\"start of docstring" false).1 (by decide),
   (C3_docstring_boundary "\"\"\"one line\"\"\"" true).2.1 (by decide)⟩

namespace NoHardcodedBuckets

/-- C4: the single code line `BUCKET = "tatari-datalake-dev-us-east-1"` (with
regions checking enabled) yields exactly one violation, of type `bucket`,
whose column offset 10 is the offset of the matched literal text in the
line; the same line with `# noqa: hardcoded-bucket` appended yields zero
violations. -/
theorem C4_bucket_line_example :
    check_file "test.py"
        (some (["BUCKET = \"tatari-datalake-dev-us-east-1\""],
          some [.assign (.constStr "tatari-datalake-dev-us-east-1" 1 9) 1 0])) true
      = [{ filename := "test.py", line := 1, col_offset := 10,
           message := "Hardcoded bucket 'tatari-datalake-dev-us-east-1' detected.",
           violation_type := "bucket",
           matched_text := some "tatari-datalake-dev-us-east-1" }]
    ∧ check_file "test.py"
        (some (["BUCKET = \"tatari-datalake-dev-us-east-1\"  # noqa: hardcoded-bucket"],
          some [.assign (.constStr "tatari-datalake-dev-us-east-1" 1 9) 1 0])) true
      = [] := by
  constructor
  · decide
  · decide

/-- Every region violation produced by the scanning loop starting at line
`i` lies on a line (at some offset `j` into the remaining lines) on which
`BUCKET_REGEX` has no match at all. -/
theorem region_viol_mem_go (filename : String) (cr : Bool) :
    ∀ (ls : List String) (i : Nat) (ds : Bool) (v : Violation),
      v ∈ find_bucket_violations_go filename cr i ds ls →
      v.violation_type = "region" →
      ∃ j, j < ls.length ∧ v.line = i + j
        ∧ bucketSearch ((ls.getD j "").toList) = false := by
  intro ls
  induction ls with
  | nil =>
    intro i ds v hv _
    simp [find_bucket_violations_go] at hv
  | cons line rest ih =>
    intro i ds v hv ht
    simp only [find_bucket_violations_go] at hv
    split at hv
    · obtain ⟨j, hj, hline, hb⟩ := ih (i + 1) _ v hv ht
      exact ⟨j + 1, by simp; omega, by omega, by simpa using hb⟩
    · split at hv
      · obtain ⟨j, hj, hline, hb⟩ := ih (i + 1) _ v hv ht
        exact ⟨j + 1, by simp; omega, by omega, by simpa using hb⟩
      · rw [List.mem_append, List.mem_append] at hv
        rcases hv with (hv | hv) | hv
        · obtain ⟨m, _, rfl⟩ := List.mem_map.mp hv
          simp [mkBucketViolation] at ht
        · split at hv
          · obtain ⟨m, _, heq⟩ := List.mem_filterMap.mp hv
            split at heq
            · cases heq
            · rename_i hbs
              obtain rfl := Option.some.inj heq
              exact ⟨0, by simp, by simp [mkRegionViolation], by simpa using hbs⟩
          · simp at hv
        · obtain ⟨j, hj, hline, hb⟩ := ih (i + 1) _ v hv ht
          exact ⟨j + 1, by simp; omega, by omega, by simpa using hb⟩

/-- C10: in the regex pass with regions checking enabled (or not), every
reported region violation lies on a line on which the bucket regex has no
match anywhere; hence on a line with any bucket match — even one disjoint
from the region string — no region violation is emitted at all. -/
theorem C10_region_only_without_bucket_match (filename : String)
    (lines : List String) (check_regions : Bool) (v : Violation)
    (hv : v ∈ find_bucket_violations filename lines check_regions)
    (ht : v.violation_type = "region") :
    1 ≤ v.line ∧ v.line ≤ lines.length
      ∧ bucketSearch ((lines.getD (v.line - 1) "").toList) = false := by
  obtain ⟨j, hj, hline, hb⟩ :=
    region_viol_mem_go filename check_regions lines 1 false v hv ht
  refine ⟨by omega, by omega, ?_⟩
  have hje : v.line - 1 = j := by omega
  rw [hje]
  exact hb

/-- Witness for C10 at a concrete file: the line `REGION = "us-east-1"` has
no bucket match, and its region violation is reported at line 1. -/
theorem C10_witness :
    1 ≤ (mkRegionViolation "t.py" 1 (10, "us-east-1".toList)).line
    ∧ (mkRegionViolation "t.py" 1 (10, "us-east-1".toList)).line
        ≤ (["REGION = \"us-east-1\""] : List String).length
    ∧ bucketSearch (((["REGION = \"us-east-1\""] : List String).getD
        ((mkRegionViolation "t.py" 1 (10, "us-east-1".toList)).line - 1) "").toList)
      = false :=
  C10_region_only_without_bucket_match "t.py" ["REGION = \"us-east-1\""] true
    (mkRegionViolation "t.py" 1 (10, "us-east-1".toList)) (by decide) (by decide)

/-- C5 (counterexample): an `if is_production():` statement returning
`"tatari-scratch-useast1"` whose else branch returns the different string
literal `"hello"` produces exactly one `conditional` violation (for the
if-branch), not two: the else branch is flagged only when its own literal
matches the bucket patterns. -/
theorem C5_counterexample :
    find_conditional_bucket_violations "f"
        (some [.funcDef "get_bucket"
          [.ifStmt (.call (.name "is_production" 2 7) [] 2 7)
            [.ret (some (.constStr "tatari-scratch-useast1" 3 15)) 3 8]
            [.ret (some (.constStr "hello" 5 15)) 5 8] 2 4] 1 0])
      = [mkCondViolation "f" 3 8 "tatari-scratch-useast1"] := by
  decide

/-- C5 (amended): for an `if` statement guarded by `is_production()` whose
if-branch returns `"tatari-scratch-useast1"` and whose else branch returns
any other string literal, the AST pass produces one `conditional` violation
for the if-branch, plus one for the else-branch exactly when the else
literal itself matches the disallowed bucket patterns. -/
theorem C5_conditional_branch_violations (s2 : String) :
    find_conditional_bucket_violations "f"
        (some [.funcDef "get_bucket"
          [.ifStmt (.call (.name "is_production" 2 7) [] 2 7)
            [.ret (some (.constStr "tatari-scratch-useast1" 3 15)) 3 8]
            [.ret (some (.constStr s2 5 15)) 5 8] 2 4] 1 0])
      = [mkCondViolation "f" 3 8 "tatari-scratch-useast1"]
          ++ (if bucketSearch s2.toList then [mkCondViolation "f" 5 8 s2] else []) := by
  have h1 : bucketSearch "tatari-scratch-useast1".toList = true := by decide
  have h2 : _is_env_check (.call (.name "is_production" 2 7) [] 2 7) = true := by
    decide
  simp only [find_conditional_bucket_violations, walkStmtList, walkStmt, walkExpr,
    walkExprList, List.flatMap_cons, List.flatMap_nil, List.append_nil,
    List.nil_append, List.cons_append, _check_body_for_buckets, h2, if_true,
    h1, if_false]

/-- The deduplication loop emits no two violations with the same key, and
none whose key is already in `seen`. -/
theorem dedupGo_pairwise (l : List Violation) :
    ∀ seen, (dedupGo seen l).Pairwise (fun a b => violationKey a ≠ violationKey b)
      ∧ ∀ w ∈ dedupGo seen l, violationKey w ∉ seen := by
  induction l with
  | nil => intro seen; simp [dedupGo]
  | cons v rest ih =>
    intro seen
    by_cases hk : violationKey v ∈ seen
    · simpa [dedupGo, hk] using ih seen
    · simp only [dedupGo, hk, if_false]
      obtain ⟨hpw, hnotin⟩ := ih (violationKey v :: seen)
      refine ⟨List.Pairwise.cons ?_ hpw, ?_⟩
      · intro b hb heq
        exact hnotin b hb (heq ▸ List.mem_cons_self _ _)
      · intro w hw
        rcases List.mem_cons.mp hw with rfl | hw'
        · exact hk
        · exact fun hws => hnotin w hw' (List.mem_cons_of_mem _ hws)

/-- The deduplication loop returns a sublist of its input (it keeps the first
occurrence of each key in scan order and drops later ones). -/
theorem dedupGo_sublist (l : List Violation) :
    ∀ seen, (dedupGo seen l).Sublist l := by
  induction l with
  | nil => intro seen; simp [dedupGo]
  | cons v rest ih =>
    intro seen
    by_cases hk : violationKey v ∈ seen
    · simp only [dedupGo, hk, if_true]
      exact (ih seen).cons v
    · simp only [dedupGo, hk, if_false]
      exact (ih _).cons₂ v

/-- Every input violation whose key is not yet seen is represented in the
output by some violation with the same key. -/
theorem dedupGo_covers (l : List Violation) :
    ∀ seen v, v ∈ l → violationKey v ∉ seen →
      ∃ w ∈ dedupGo seen l, violationKey w = violationKey v := by
  induction l with
  | nil => intro seen v hv; cases hv
  | cons u rest ih =>
    intro seen v hv hns
    by_cases hk : violationKey u ∈ seen
    · simp only [dedupGo, hk, if_true]
      rcases List.mem_cons.mp hv with rfl | hv'
      · exact absurd hk hns
      · exact ih seen v hv' hns
    · simp only [dedupGo, hk, if_false]
      rcases List.mem_cons.mp hv with rfl | hv'
      · exact ⟨v, List.mem_cons_self _ _, rfl⟩
      · by_cases hvu : violationKey v = violationKey u
        · exact ⟨u, List.mem_cons_self _ _, hvu.symm⟩
        · obtain ⟨w, hw, hwk⟩ := ih (violationKey u :: seen) v hv'
            (by simp [hns, hvu])
          exact ⟨w, List.mem_cons_of_mem _ hw, hwk⟩

/-- C6: `check_file` never reports two violations with the same
`(filename, line, column offset, violation type)` key; the reported list is a
sublist of the concatenated regex-pass and AST-pass violations (so order and
first occurrences are kept), and every raw violation's key is represented in
the report. -/
theorem C6_check_file_dedup (filename : String)
    (content : Option (List String × Option (List PyStmt)))
    (check_regions : Bool) :
    (check_file filename content check_regions).Pairwise
        (fun a b => violationKey a ≠ violationKey b)
    ∧ ∀ lines tree, content = some (lines, tree) →
        ((check_file filename content check_regions).Sublist
            (find_bucket_violations filename lines check_regions
               ++ find_conditional_bucket_violations filename tree))
        ∧ ∀ v ∈ find_bucket_violations filename lines check_regions
              ++ find_conditional_bucket_violations filename tree,
            ∃ w ∈ check_file filename content check_regions,
              violationKey w = violationKey v := by
  constructor
  · match content with
    | none => simp [check_file]
    | some (lines, tree) => exact (dedupGo_pairwise _ []).1
  · intro lines tree hc
    subst hc
    exact ⟨dedupGo_sublist _ [], fun v hv => dedupGo_covers _ [] v hv (by simp)⟩

/-- Witness for C6 on a concrete file whose regex pass and AST pass produce
the same violation twice: the report keeps a single copy. -/
theorem C6_witness :
    ((check_file "w.py" (some (["REGION = \"us-east-1\""], some [])) true).Pairwise
        (fun a b => violationKey a ≠ violationKey b))
    ∧ (((check_file "w.py" (some (["REGION = \"us-east-1\""], some [])) true).Sublist
          (find_bucket_violations "w.py" ["REGION = \"us-east-1\""] true
             ++ find_conditional_bucket_violations "w.py" (some [])))
        ∧ ∀ v ∈ find_bucket_violations "w.py" ["REGION = \"us-east-1\""] true
              ++ find_conditional_bucket_violations "w.py" (some []),
            ∃ w ∈ check_file "w.py" (some (["REGION = \"us-east-1\""], some [])) true,
              violationKey w = violationKey v) :=
  ⟨(C6_check_file_dedup "w.py" (some (["REGION = \"us-east-1\""], some [])) true).1,
   (C6_check_file_dedup "w.py" (some (["REGION = \"us-east-1\""], some [])) true).2
      ["REGION = \"us-east-1\""] (some []) rfl⟩

end NoHardcodedBuckets

namespace NoBoto3

/-- C9: a file that cannot be opened, or cannot be parsed into a syntax
tree, contributes an empty violation list to the boto3-import hook (the
error is swallowed); consequently an invocation whose files are all
unreadable or unparsable exits with status 0. -/
theorem C9_unreadable_or_unparsable_clean :
    (∀ fn, check_file fn .unreadable = [])
    ∧ (∀ fn ls, check_file fn (.unparsable ls) = [])
    ∧ (∀ files : List (String × FileInput),
        (∀ f ∈ files, ∀ ls tree, f.2 ≠ FileInput.parsed ls tree) →
        main files = 0) := by
  refine ⟨fun fn => rfl, fun fn ls => rfl, ?_⟩
  have hcollect : ∀ files : List (String × FileInput),
      (∀ f ∈ files, ∀ ls tree, f.2 ≠ FileInput.parsed ls tree) →
      collectAll files = [] := by
    intro files
    induction files with
    | nil => intro _; rfl
    | cons f rest ih =>
      intro h
      obtain ⟨fn, inp⟩ := f
      have hrest := ih (fun g hg => h g (List.mem_cons_of_mem _ hg))
      have hcf : check_file fn inp = [] := by
        cases inp with
        | unreadable => rfl
        | unparsable ls => rfl
        | parsed ls tree =>
            exact absurd rfl (h (fn, .parsed ls tree) (List.mem_cons_self _ _) ls tree)
      simp [collectAll, hcf, hrest]
  intro files h
  rw [main, hcollect files h]

/-- Witness for C9: one unreadable and one unparsable `.py` file yield
exit status 0. -/
theorem C9_witness :
    main [("a.py", .unreadable), ("b.py", .unparsable ["def broken(:"])] = 0 :=
  C9_unreadable_or_unparsable_clean.2.2
    [("a.py", .unreadable), ("b.py", .unparsable ["def broken(:"])]
    (by intro f hf ls tree; fin_cases hf <;> simp)

end NoBoto3

namespace AppConstraints

/-- Messages already printed are preserved by the dependency loop. -/
theorem validateDeps_out_mono (ignore : List String) :
    ∀ (l : List (String × String)) (acc : Nat × List String) (m : String),
      m ∈ acc.2 → m ∈ (validateDeps ignore acc l).2 := by
  intro l
  induction l with
  | nil => intro acc m hm; obtain ⟨st, out⟩ := acc; exact hm
  | cons d rest ih =>
    intro acc m hm
    obtain ⟨st, out⟩ := acc
    obtain ⟨n, c⟩ := d
    by_cases hn : n ∈ ignore
    · simp only [validateDeps, hn, if_true]
      exact ih (st, out) m hm
    · simp only [validateDeps, hn, if_false]
      split
      · exact ih _ m (List.mem_append_left _ hm)
      · exact ih _ m (List.mem_append_left _ hm)

/-- Every non-exempt dependency whose constraint lacks `~=` gets its
`INCORRECT FORMAT` message printed, whatever the loop state. -/
theorem validateDeps_msgs (ignore : List String) :
    ∀ (l : List (String × String)) (acc : Nat × List String)
      (n c : String), (n, c) ∈ l → n ∉ ignore → strHas c "~=" = false →
      ("INCORRECT FORMAT: " ++ n ++ " = \"" ++ c ++ "\"")
        ∈ (validateDeps ignore acc l).2 := by
  intro l
  induction l with
  | nil => intro acc n c hm; cases hm
  | cons d rest ih =>
    intro acc n c hm hn hc
    obtain ⟨st, out⟩ := acc
    obtain ⟨n', c'⟩ := d
    rcases List.mem_cons.mp hm with heq | hm'
    · injection heq with h1 h2
      subst h1
      subst h2
      simp only [validateDeps, hn, if_false]
      have hr : (_validate_package_constraint_app n c).2
          = ["INCORRECT FORMAT: " ++ n ++ " = \"" ++ c ++ "\"",
             "All application package constraints should use ~= (compatible release). For example: tatari-metrics = \"~=1.0.1\""] := by
        simp only [_validate_package_constraint_app, hc, if_true]
      split
      · exact validateDeps_out_mono ignore rest _ _
          (List.mem_append_right _ (by rw [hr]; exact List.mem_cons_self _ _))
      · exact validateDeps_out_mono ignore rest _ _
          (List.mem_append_right _ (by rw [hr]; exact List.mem_cons_self _ _))
    · by_cases hn' : n' ∈ ignore
      · simp only [validateDeps, hn', if_true]
        exact ih (st, out) n c hm' hn hc
      · simp only [validateDeps, hn', if_false]
        split
        · exact ih _ n c hm' hn hc
        · exact ih _ n c hm' hn hc

/-- Once the loop state is failing it stays failing. -/
theorem validateDeps_status_one (ignore : List String) :
    ∀ (l : List (String × String)) (acc : Nat × List String),
      acc.1 = 1 → (validateDeps ignore acc l).1 = 1 := by
  intro l
  induction l with
  | nil => intro acc h; obtain ⟨st, out⟩ := acc; exact h
  | cons d rest ih =>
    intro acc h
    obtain ⟨st, out⟩ := acc
    obtain ⟨n, c⟩ := d
    simp only at h
    subst h
    by_cases hn : n ∈ ignore
    · simp only [validateDeps, hn, if_true]
      exact ih (1, out) rfl
    · simp only [validateDeps, hn, if_false]
      rw [if_pos (by omega)]
      exact ih _ rfl

/-- A non-exempt dependency whose constraint lacks `~=` drives the final
status to 1. -/
theorem validateDeps_status_fail (ignore : List String) :
    ∀ (l : List (String × String)) (acc : Nat × List String),
      acc.1 = 0 →
      (∃ d ∈ l, d.1 ∉ ignore ∧ strHas d.2 "~=" = false) →
      (validateDeps ignore acc l).1 = 1 := by
  intro l
  induction l with
  | nil => intro acc _ h; obtain ⟨d, hd, _⟩ := h; cases hd
  | cons e rest ih =>
    intro acc hacc h
    obtain ⟨st, out⟩ := acc
    simp only at hacc
    subst hacc
    obtain ⟨n', c'⟩ := e
    obtain ⟨d, hd, hdi, hdc⟩ := h
    by_cases hn' : n' ∈ ignore
    · simp only [validateDeps, hn', if_true]
      rcases List.mem_cons.mp hd with rfl | hd'
      · exact absurd hn' hdi
      · exact ih (0, out) rfl ⟨d, hd', hdi, hdc⟩
    · simp only [validateDeps, hn', if_false]
      rw [if_neg (by omega)]
      by_cases hc' : strHas c' "~=" = false
      · have h1 : (_validate_package_constraint_app n' c').1 = 1 := by
          simp only [_validate_package_constraint_app, hc', if_true]
        rw [h1]
        exact validateDeps_status_one ignore rest _ rfl
      · rcases List.mem_cons.mp hd with rfl | hd'
        · exact absurd hdc hc'
        · have h0 : (_validate_package_constraint_app n' c').1 = 0 := by
            simp only [_validate_package_constraint_app]
            rw [if_neg (by simpa using hc')]
          rw [h0]
          exact ih _ rfl ⟨d, hd', hdi, hdc⟩

/-- With a clean state, exempting every failing dependency yields status 0. -/
theorem validateDeps_status_zero (ignore : List String) :
    ∀ (l : List (String × String)) (acc : Nat × List String),
      acc.1 = 0 →
      (∀ d ∈ l, d.1 ∉ ignore → strHas d.2 "~=" = true) →
      (validateDeps ignore acc l).1 = 0 := by
  intro l
  induction l with
  | nil => intro acc hacc _; obtain ⟨st, out⟩ := acc; exact hacc
  | cons e rest ih =>
    intro acc hacc h
    obtain ⟨st, out⟩ := acc
    simp only at hacc
    subst hacc
    obtain ⟨n', c'⟩ := e
    by_cases hn' : n' ∈ ignore
    · simp only [validateDeps, hn', if_true]
      exact ih (0, out) rfl (fun d hd => h d (List.mem_cons_of_mem _ hd))
    · simp only [validateDeps, hn', if_false]
      rw [if_neg (by omega)]
      have hc' := h (n', c') (List.mem_cons_self _ _) hn'
      have h0 : (_validate_package_constraint_app n' c').1 = 0 := by
        simp only [_validate_package_constraint_app]
        rw [if_neg (by simpa using hc')]
      rw [h0]
      exact ih _ rfl (fun d hd => h d (List.mem_cons_of_mem _ hd))

theorem python_status_cases (n c : String) :
    (_validate_python_constraint_app n c).1 = 0
      ∨ (_validate_python_constraint_app n c).1 = 1 := by
  rw [_validate_python_constraint_app]
  split
  · right; rfl
  · left; rfl

/-- C7: for every uv manifest and ignore-list, the validator prints an
`INCORRECT FORMAT` message for every non-exempt dependency whose constraint
lacks `~=` (all violations are evaluated, not just the first); it returns
exit status 1 when at least one non-exempt failure remains; dependencies
named in the ignore-list are exempt from the package rule, so a manifest
whose non-exempt dependencies and `requires-python` all conform exits 0;
and the manifest with dependencies `["tatari-foo>=1.0", "ignored~=1.0"]`
and ignore-list `["ignored"]` yields exit status 1. -/
theorem C7_validate_constraints_behaviour :
    (∀ (ignore : List String) (p : PyProjectToml) (d : String × String),
        d ∈ _get_uv_dependencies p → _is_uv_project p = true →
        d.1 ∉ ignore → strHas d.2 "~=" = false →
        ("INCORRECT FORMAT: " ++ d.1 ++ " = \"" ++ d.2 ++ "\"")
          ∈ (validate_constraints ignore p).2)
    ∧ (∀ (ignore : List String) (p : PyProjectToml), _is_uv_project p = true →
        (∃ d ∈ _get_uv_dependencies p, d.1 ∉ ignore ∧ strHas d.2 "~=" = false) →
        (validate_constraints ignore p).1 = 1)
    ∧ (∀ (ignore : List String) (p : PyProjectToml), _is_uv_project p = true →
        (∀ rp, _get_uv_requires_python p = some rp → strHas rp "~=" = true) →
        (∀ d ∈ _get_uv_dependencies p, d.1 ∉ ignore → strHas d.2 "~=" = true) →
        (validate_constraints ignore p).1 = 0)
    ∧ (validate_constraints ["ignored"]
        ⟨some ⟨some "~=3.10", some ["tatari-foo>=1.0", "ignored~=1.0"]⟩⟩).1 = 1 := by
  refine ⟨?_, ?_, ?_, ?_⟩
  · intro ignore p d hd hp hdi hdc
    obtain ⟨n, c⟩ := d
    rw [validate_constraints, if_neg (by simp [hp])]
    rcases hrp : _get_uv_requires_python p with _ | rp
    · exact validateDeps_msgs ignore _ ((0 : Nat), ([] : List String)) n c hd hdi hdc
    · exact validateDeps_msgs ignore _
        (_validate_python_constraint_app "requires-python" rp) n c hd hdi hdc
  · intro ignore p hp hex
    rw [validate_constraints, if_neg (by simp [hp])]
    rcases hrp : _get_uv_requires_python p with _ | rp
    · exact validateDeps_status_fail ignore _ ((0 : Nat), ([] : List String)) rfl hex
    · rcases python_status_cases "requires-python" rp with h0 | h1
      · exact validateDeps_status_fail ignore _
          (_validate_python_constraint_app "requires-python" rp) h0 hex
      · exact validateDeps_status_one ignore _
          (_validate_python_constraint_app "requires-python" rp) h1
  · intro ignore p hp hpy hdeps
    rw [validate_constraints, if_neg (by simp [hp])]
    rcases hrp : _get_uv_requires_python p with _ | rp
    · exact validateDeps_status_zero ignore _ ((0 : Nat), ([] : List String)) rfl hdeps
    · have h0 : (_validate_python_constraint_app "requires-python" rp).1 = 0 := by
        rw [_validate_python_constraint_app,
          if_neg (by simp [hpy rp hrp])]
      exact validateDeps_status_zero ignore _
        (_validate_python_constraint_app "requires-python" rp) h0 hdeps
  · decide

/-- Witness for C7: on the example manifest, the non-ignored dependency's
message is printed and the exit status is 1. -/
theorem C7_witness :
    ("INCORRECT FORMAT: " ++ "tatari-foo" ++ " = \"" ++ ">=1.0" ++ "\"")
        ∈ (validate_constraints ["ignored"]
            ⟨some ⟨some "~=3.10", some ["tatari-foo>=1.0", "ignored~=1.0"]⟩⟩).2
    ∧ (validate_constraints ["ignored"]
        ⟨some ⟨some "~=3.10", some ["tatari-foo>=1.0", "ignored~=1.0"]⟩⟩).1 = 1 :=
  ⟨C7_validate_constraints_behaviour.1 ["ignored"]
      ⟨some ⟨some "~=3.10", some ["tatari-foo>=1.0", "ignored~=1.0"]⟩⟩
      ("tatari-foo", ">=1.0") (by decide) (by decide) (by decide) (by decide),
   C7_validate_constraints_behaviour.2.2.2⟩

/-- C8: the uv dependency string `tatari-foo[dev]~=1.0` is extracted as name
`tatari-foo` with constraint `~=1.0` (platform markers after a semicolon and
extras in brackets are stripped), and that constraint validates as correct
(exit contribution 0) under the application-profile package rule. -/
theorem C8_uv_extras_extraction :
    _get_uv_dependencies ⟨some ⟨none, some ["tatari-foo[dev]~=1.0"]⟩⟩
        = [("tatari-foo", "~=1.0")]
    ∧ (_validate_package_constraint_app "tatari-foo" "~=1.0").1 = 0 := by
  refine ⟨by decide, by decide⟩

end AppConstraints

end PreCommitHooks
